import Mathlib

/-!
Verification of the alfred-async-agent skill-execution pipeline.

Shallow embedding of the TypeScript sources:
  * `src/db/client.ts` (+ the concatenated `db/utils` half): `withTimeout`,
    `withRetry`, `isPrismaError`, `PrismaErrorCodes`;
  * `src/database.ts`: `createExecution`, `updateExecution`, `upsertResult`,
    `getAllWorkflows`, `getWorkflowById`;
  * `src/webhook.ts`: the `processWebhook` database interaction sequence;
  * `src/workflow-classifier.ts`: `parseClassificationResponse`,
    `classifyWorkflow`;
  * the config handler (`encrypt` / `decrypt` / `getAnthropicApiKey`).

JavaScript strings are modelled as `List Char`; machine-level details that the
code never relies on (number formatting, Unicode case tables beyond ASCII) are
modelled by the corresponding Lean primitives.  Thrown JS exceptions are
modelled by `Except JsErr`; `undefined`-vs-present record fields by `Option`.
-/

/-- A JavaScript error value as observed by the retry / classifier code: an
optional `code` discriminator field plus a message.  `isPrismaError` in the
source only looks at the presence and type of `code`. -/
structure JsErr where
  code : Option String
  message : String
  deriving DecidableEq, Repr

/-- `PrismaErrorCodes.CONNECTION_ERROR` from `db/utils`. -/
def CONNECTION_ERROR : String := "P1001"

/-- `PrismaErrorCodes.CONNECTION_TIMEOUT` from `db/utils`. -/
def CONNECTION_TIMEOUT : String := "P1008"

/-- `isPrismaError` from `db/utils`: the error is an object carrying a string
`code` field.  In the `JsErr` model this is the presence of `code`. -/
def isPrismaError (e : JsErr) : Bool :=
  e.code.isSome

/-- The retry decision from `withRetry` (`db/utils`):
`isPrismaError(error) && (error.code === P1001 || error.code === P1008)`. -/
def shouldRetry (e : JsErr) : Bool :=
  isPrismaError e &&
    (e.code == some CONNECTION_ERROR || e.code == some CONNECTION_TIMEOUT)

/-- `RetryConfig` from `db/utils`. -/
structure RetryConfig where
  maxAttempts : Nat
  delayMs : Nat
  backoffMultiplier : Nat
  deriving DecidableEq, Repr

/-- `DEFAULT_RETRY_CONFIG` from `db/utils`: 3 attempts, 100 ms initial delay,
backoff factor 2. -/
def DEFAULT_RETRY_CONFIG : RetryConfig :=
  { maxAttempts := 3, delayMs := 100, backoffMultiplier := 2 }

/-- The `throw lastError!` fallthrough after the loop in `withRetry`; reachable
only when `maxAttempts = 0` (the non-null assertion fires on `undefined`). -/
def undefinedLastError : JsErr :=
  { code := none, message := "undefined" }

/-- The attempt loop of `withRetry` (`db/utils`).  `op i` is the outcome of the
`i`-th invocation of the wrapped operation (1-indexed).  Returns the final
outcome together with the number of invocations performed.  `fuel` counts the
remaining loop iterations (`maxAttempts - attempt + 1`). -/
def retryLoop (op : Nat → Except JsErr α) (maxAttempts : Nat) :
    Nat → Nat → Except JsErr α × Nat
  | attempt, 0 => (Except.error undefinedLastError, attempt - 1)
  | attempt, fuel + 1 =>
    match op attempt with
    | Except.ok v => (Except.ok v, attempt)
    | Except.error e =>
      if !shouldRetry e || attempt == maxAttempts then
        (Except.error e, attempt)
      else
        retryLoop op maxAttempts (attempt + 1) fuel

/-- `withRetry` from `db/utils`: run the operation for up to
`config.maxAttempts` attempts, retrying only on transient Prisma connection
errors.  Result paired with the number of invocations. -/
def withRetry (op : Nat → Except JsErr α) (config : RetryConfig) :
    Except JsErr α × Nat :=
  retryLoop op config.maxAttempts 1 config.maxAttempts

/-- A transient connection error for tests/witnesses. -/
def connErr : JsErr := { code := some CONNECTION_ERROR, message := "conn" }

/-- A non-transient error for tests/witnesses. -/
def appErr : JsErr := { code := none, message := "boom" }

example : withRetry (fun _ => Except.ok (42 : Nat)) DEFAULT_RETRY_CONFIG =
    (Except.ok 42, 1) := rfl

example :
    withRetry (fun i => if i ≤ 2 then Except.error connErr else Except.ok (7 : Nat))
      DEFAULT_RETRY_CONFIG = (Except.ok 7, 3) := rfl

example :
    withRetry (fun _ => (Except.error appErr : Except JsErr Nat))
      DEFAULT_RETRY_CONFIG = (Except.error appErr, 1) := rfl

/-- Exhaustion lemma: if every attempt from `attempt` up to `maxAttempts`
fails with a retry-classified error, the loop performs all remaining attempts
and propagates the error of attempt `maxAttempts` unchanged. -/
theorem retryLoop_exhaust (op : Nat → Except JsErr α) (maxAttempts : Nat)
    (es : Nat → JsErr) :
    ∀ fuel attempt, attempt + fuel = maxAttempts + 1 → attempt ≤ maxAttempts →
    (∀ i, attempt ≤ i → i ≤ maxAttempts → op i = Except.error (es i) ∧
      shouldRetry (es i) = true) →
    retryLoop op maxAttempts attempt fuel =
      (Except.error (es maxAttempts), maxAttempts) := by
  intro fuel
  induction fuel with
  | zero =>
    intro attempt hsum hle _
    omega
  | succ n ih =>
    intro attempt hsum hle hall
    obtain ⟨hop, hretry⟩ := hall attempt le_rfl hle
    by_cases hlast : attempt = maxAttempts
    · subst hlast
      simp [retryLoop, hop, hretry]
    · have hne : (attempt == maxAttempts) = false := by
        simp [hlast]
      have : retryLoop op maxAttempts attempt (n + 1) =
          retryLoop op maxAttempts (attempt + 1) n := by
        simp [retryLoop, hop, hretry, hne]
      rw [this]
      exact ih (attempt + 1) (by omega) (by omega)
        (fun i hi hi2 => hall i (by omega) hi2)

/-- Claim C4: `withRetry` retries only on errors carrying the transient
`code` discriminator (P1001 / P1008); a non-transient first error propagates
after exactly one invocation (for any positive `maxAttempts`); with
`maxAttempts = 3`, an operation failing twice transiently then succeeding
returns the success value after exactly 3 invocations; and when every attempt
fails transiently, the last error propagates unchanged after `maxAttempts`
invocations. -/
theorem withRetry_spec (op : Nat → Except JsErr α) :
    (∀ n e, op 1 = Except.error e → shouldRetry e = false →
      withRetry op { DEFAULT_RETRY_CONFIG with maxAttempts := n + 1 } =
        (Except.error e, 1)) ∧
    (∀ e₁ e₂ v, op 1 = Except.error e₁ → shouldRetry e₁ = true →
      op 2 = Except.error e₂ → shouldRetry e₂ = true →
      op 3 = Except.ok v →
      withRetry op DEFAULT_RETRY_CONFIG = (Except.ok v, 3)) ∧
    (∀ n (es : Nat → JsErr),
      (∀ i, 1 ≤ i → i ≤ n + 1 → op i = Except.error (es i) ∧
        shouldRetry (es i) = true) →
      withRetry op { DEFAULT_RETRY_CONFIG with maxAttempts := n + 1 } =
        (Except.error (es (n + 1)), n + 1)) := by
  refine ⟨?_, ?_, ?_⟩
  · intro n e hop hretry
    cases n with
    | zero => simp [withRetry, retryLoop, hop, hretry]
    | succ m => simp [withRetry, retryLoop, hop, hretry]
  · intro e₁ e₂ v h1 r1 h2 r2 h3
    simp [withRetry, DEFAULT_RETRY_CONFIG, retryLoop, h1, r1, h2, r2, h3]
  · intro n es hall
    exact retryLoop_exhaust op (n + 1) es (n + 1) 1 (by omega) (by omega) hall

/-- Witness for `withRetry_spec`: a concrete operation failing twice with a
P1001 connection error and then succeeding returns the success value after
exactly three invocations. -/
theorem withRetry_spec_witness :
    withRetry (fun i => if i ≤ 2 then Except.error connErr else Except.ok (7 : Nat))
      DEFAULT_RETRY_CONFIG = (Except.ok 7, 3) :=
  (withRetry_spec
    (fun i => if i ≤ 2 then Except.error connErr else Except.ok (7 : Nat))).2.1
    connErr connErr 7 rfl rfl rfl rfl rfl

/-! ## Timeout guard (`withTimeout`, `db/client.ts`)

The event loop is modelled denotationally: an asynchronous operation is a
settle time (milliseconds since the race started), a settled outcome, and the
list of side effects the operation performs when it runs to completion.
`Promise.race` surfaces the earlier settler; the pending timer created by
`withTimeout` rejects at `timeoutMs`.  Promise reactions of an operation that
has already settled run before the timer callback of the same tick, so the
operation wins ties.  Nothing in `withTimeout` cancels the operation, so its
side effects happen in every case. -/

/-- `DATABASE_CONFIG.QUERY_TIMEOUT` from `db/client.ts`. -/
def QUERY_TIMEOUT : Nat := 15000

/-- An asynchronous operation as seen by the race in `withTimeout`. -/
structure AsyncOp (α : Type) where
  settleAt : Nat
  outcome : Except JsErr α
  effects : List String
  deriving Repr

/-- The winner of `Promise.race([queryFn(), timer(timeoutMs)])`. -/
inductive RaceWinner (α : Type) where
  | opSettled (r : Except JsErr α)
  | timerFired
  deriving Repr

/-- Which promise settles the race first: the operation if it settles no later
than the timer, otherwise the timer. -/
def raceWinner (op : AsyncOp α) (timeoutMs : Nat) : RaceWinner α :=
  if op.settleAt ≤ timeoutMs then RaceWinner.opSettled op.outcome
  else RaceWinner.timerFired

/-- `withTimeout` from `db/client.ts`: race the operation against a timer that
rejects with `Query timeout after <timeoutMs>ms`.  The returned pair is the
caller-visible outcome together with the side effects that occur in the
system (the operation is never cancelled, so its effects always appear). -/
def withTimeout (op : AsyncOp α) (timeoutMs : Nat) :
    Except JsErr α × List String :=
  (match raceWinner op timeoutMs with
   | RaceWinner.opSettled r => r
   | RaceWinner.timerFired =>
     Except.error { code := none,
                    message := "Query timeout after " ++ toString timeoutMs ++ "ms" },
   op.effects)

/-- `withTimeout` with the default `timeoutMs` argument
(`DATABASE_CONFIG.QUERY_TIMEOUT = 15000`). -/
def withTimeoutDefault (op : AsyncOp α) : Except JsErr α × List String :=
  withTimeout op QUERY_TIMEOUT

/-- Claim C5: `withTimeout op t` surfaces the operation's own outcome when it
settles within `t` milliseconds and otherwise rejects with the message
`Query timeout after <t>ms`; the default deadline is 15000 ms; and in both
cases the operation's side effects still occur (the race never cancels it). -/
theorem withTimeout_spec (op : AsyncOp α) (t : Nat) :
    (op.settleAt ≤ t → withTimeout op t = (op.outcome, op.effects)) ∧
    (t < op.settleAt → withTimeout op t =
      (Except.error { code := none,
                      message := "Query timeout after " ++ toString t ++ "ms" },
       op.effects)) ∧
    (withTimeout op t).2 = op.effects ∧
    withTimeoutDefault op = withTimeout op 15000 := by
  refine ⟨?_, ?_, ?_, rfl⟩
  · intro h
    simp [withTimeout, raceWinner, h]
  · intro h
    simp [withTimeout, raceWinner, Nat.not_le.mpr h]
  · simp [withTimeout]

/-- Witness for `withTimeout_spec`: an operation settling at 200 ms raced
against a 50 ms deadline rejects with the timeout message while its side
effect is still performed. -/
theorem withTimeout_spec_witness :
    withTimeout { settleAt := 200, outcome := Except.ok (1 : Nat),
                  effects := ["wrote row"] } 50 =
      (Except.error { code := none, message := "Query timeout after 50ms" },
       ["wrote row"]) := by
  have h := (withTimeout_spec
    { settleAt := 200, outcome := Except.ok (1 : Nat),
      effects := ["wrote row"] } 50).2.1 (by decide)
  simpa using h

/-! ## Secret store (config handler: `encrypt` / `decrypt` /
`getAnthropicApiKey`)

Strings are `List Char`.  The AES-256-GCM primitives (`createCipheriv` /
`createDecipheriv`) are the out-of-scope crypto capability; they are modelled
as an abstract cipher whose base64 outputs are parameters, with the inverse
property taken as a hypothesis where needed.  The value format, marker
handling and store logic are translated from the source. -/

/-- The encryption marker prefix `encrypted:` of stored values. -/
def encMarker : List Char := "encrypted:".toList

/-- JavaScript `String.prototype.split(':')`. -/
def splitOnColon : List Char → List (List Char)
  | [] => [[]]
  | c :: rest =>
    if c = ':' then [] :: splitOnColon rest
    else
      match splitOnColon rest with
      | [] => [[c]]
      | p :: ps => (c :: p) :: ps

example : splitOnColon "a:bc:d".toList = ["a".toList, "bc".toList, "d".toList] := by
  decide

/-- The AES-256-GCM capability used by the config handler: `enc`/`tag` give the
base64 ciphertext and auth tag for an IV and plaintext, `dec` authenticates and
decrypts (`none` models a thrown bad-tag / malformed error). -/
structure GcmCipher where
  enc : List Char → List Char → List Char
  tag : List Char → List Char → List Char
  dec : List Char → List Char → List Char → Option (List Char)

/-- `encrypt` from the config handler: pack IV, auth tag and ciphertext into
`encrypted:<iv>:<authTag>:<ciphertext>`. -/
def encrypt (c : GcmCipher) (iv plaintext : List Char) : List Char :=
  encMarker ++ iv ++ ':' :: c.tag iv plaintext ++ ':' :: c.enc iv plaintext

/-- `decrypt` from the config handler: a value without the `encrypted:` marker
is returned unchanged (plaintext migration tolerance); otherwise the value is
split on `:`, must have exactly 4 parts, and is authenticated-decrypted.
`none` models a thrown error. -/
def decrypt (c : GcmCipher) (value : List Char) : Option (List Char) :=
  if !encMarker.isPrefixOf value then
    some value
  else
    match splitOnColon value with
    | [_, iv, authTag, ct] => c.dec iv authTag ct
    | _ => none

/-- `getAnthropicApiKey` from the config handler, over the stored config value
for the key: a missing row or empty value yields `none` (`null`), otherwise the
value is decrypted; a thrown decrypt error is caught and yields `none`. -/
def getAnthropicApiKey (c : GcmCipher) (stored : Option (List Char)) :
    Option (List Char) :=
  match stored with
  | none => none
  | some v => if v = [] then none else decrypt c v

/-- The stored value written by the config setter for a plaintext: the
encrypted packed format. -/
def setSecretValue (c : GcmCipher) (iv plaintext : List Char) : List Char :=
  encrypt c iv plaintext

/-- Splitting on `:` walks past a colon-free prefix. -/
theorem splitOnColon_append (xs ys : List Char) (h : ':' ∉ xs) :
    splitOnColon (xs ++ ':' :: ys) = xs :: splitOnColon ys := by
  induction xs with
  | nil => simp [splitOnColon]
  | cons a as ih =>
    have ha : a ≠ ':' := fun hc => h (hc ▸ List.mem_cons_self a as)
    have has : ':' ∉ as := fun hc => h (List.mem_cons_of_mem a hc)
    simp only [List.cons_append, splitOnColon, if_neg ha, List.append_eq, ih has]

/-- Splitting a colon-free string yields a single part. -/
theorem splitOnColon_no_colon (xs : List Char) (h : ':' ∉ xs) :
    splitOnColon xs = [xs] := by
  induction xs with
  | nil => simp [splitOnColon]
  | cons a as ih =>
    have ha : a ≠ ':' := fun hc => h (hc ▸ List.mem_cons_self a as)
    have has : ':' ∉ as := fun hc => h (List.mem_cons_of_mem a hc)
    simp only [splitOnColon, if_neg ha, ih has]

/-- A list is a `isPrefixOf`-prefix of itself extended by anything. -/
theorem isPrefixOf_append_self (xs ys : List Char) :
    xs.isPrefixOf (xs ++ ys) = true := by
  induction xs with
  | nil => simp [List.isPrefixOf]
  | cons a as ih => simp [List.isPrefixOf, ih]

/-- A trivial cipher instance used for concrete evaluations: identity
"encryption" with a fixed tag. -/
def trivCipher : GcmCipher where
  enc := fun _ p => p
  tag := fun _ _ => ['t']
  dec := fun _ _ ct => some ct

/-- Counterexample to claim C9 as stated: the empty stored value lacks the
encryption marker, yet the getter reports it as absent (`null`) rather than
returning it unchanged, because of the `!config.value` falsiness guard. -/
theorem secretStore_empty_value_cex :
    getAnthropicApiKey trivCipher (some ([] : List Char)) = none ∧
    (none : Option (List Char)) ≠ some [] := by
  exact ⟨rfl, by simp⟩

/-- Claim C9 (amended): encrypting a plaintext with the store's setter and
reading it back through `getAnthropicApiKey` yields the original plaintext
(given the GCM capability inverts itself and emits colon-free base64 parts);
and every nonempty stored value lacking the `encrypted:` marker is returned
unchanged (plaintext migration tolerance) — the empty stored value alone is
reported as absent. -/
theorem secretStore_roundtrip (c : GcmCipher) (iv p : List Char)
    (hiv : ':' ∉ iv) (htag : ':' ∉ c.tag iv p) (hct : ':' ∉ c.enc iv p)
    (hdec : c.dec iv (c.tag iv p) (c.enc iv p) = some p) :
    getAnthropicApiKey c (some (setSecretValue c iv p)) = some p ∧
    (∀ v : List Char, v ≠ [] → encMarker.isPrefixOf v = false →
      getAnthropicApiKey c (some v) = some v) := by
  constructor
  · have hne : setSecretValue c iv p ≠ [] := by
      simp [setSecretValue, encrypt, encMarker]
    have hform : setSecretValue c iv p =
        "encrypted".toList ++ ':' :: (iv ++ ':' ::
          (c.tag iv p ++ ':' :: c.enc iv p)) := by
      simp [setSecretValue, encrypt, encMarker]
    have hpre : encMarker.isPrefixOf (setSecretValue c iv p) = true := by
      have : setSecretValue c iv p =
          encMarker ++ (iv ++ ':' :: (c.tag iv p ++ ':' :: c.enc iv p)) := by
        simp [setSecretValue, encrypt, encMarker]
      rw [this]
      exact isPrefixOf_append_self _ _
    have hsplit : splitOnColon (setSecretValue c iv p) =
        ["encrypted".toList, iv, c.tag iv p, c.enc iv p] := by
      rw [hform,
        splitOnColon_append "encrypted".toList _ (by decide),
        splitOnColon_append iv _ hiv,
        splitOnColon_append (c.tag iv p) _ htag,
        splitOnColon_no_colon (c.enc iv p) hct]
    simp [getAnthropicApiKey, hne, decrypt, hpre, hsplit, hdec]
  · intro v hv hpre
    simp [getAnthropicApiKey, hv, decrypt, hpre]

/-- Witness for `secretStore_roundtrip`: a concrete set/get round trip of the
plaintext `v`, and a concrete pre-migration plaintext value `plainvalue` read
back unchanged. -/
theorem secretStore_roundtrip_witness :
    getAnthropicApiKey trivCipher
      (some (setSecretValue trivCipher "iv".toList "v".toList)) =
        some "v".toList ∧
    getAnthropicApiKey trivCipher (some "plainvalue".toList) =
      some "plainvalue".toList := by
  have h := secretStore_roundtrip trivCipher "iv".toList "v".toList
    (by decide) (by decide) (by decide) rfl
  exact ⟨h.1, h.2 "plainvalue".toList (by decide) (by decide)⟩

/-! ## Execution store and pipeline bookkeeping
(`database.ts` + the `processWebhook` database sequence in `webhook.ts`)

The relational store is a pure state: the Skill and Execution tables plus an
id counter and a clock that advances at every `new Date()` call (so distinct
timestamp writes are distinguishable).  Prisma `update` with an `undefined`
field leaves the column unchanged; `update` on a missing row throws, which
`updateExecution` catches (non-fatally), leaving whatever had already been
written in place — there is no transaction in this code path. -/

/-- Execution status values. -/
inductive ExecStatus where
  | running
  | completed
  | failed
  deriving DecidableEq, Repr

/-- The `'completed' | 'failed'` parameter type of `updateExecution`. -/
inductive TerminalStatus where
  | completed
  | failed
  deriving DecidableEq, Repr

/-- Inclusion of the terminal statuses into all statuses. -/
def TerminalStatus.toExecStatus : TerminalStatus → ExecStatus
  | TerminalStatus.completed => ExecStatus.completed
  | TerminalStatus.failed => ExecStatus.failed

/-- A Skill row (fields used by the pipeline and the classifier). -/
structure Skill where
  id : String
  name : String
  description : Option String
  steps : List String
  isActive : Bool
  runCount : Nat
  lastRunAt : Option Nat
  createdAt : Nat
  deriving DecidableEq, Repr

/-- An Execution row. -/
structure Execution where
  id : String
  skillId : String
  status : ExecStatus
  trigger : String
  input : String
  output : Option String
  trace : Option (List String)
  error : Option String
  startedAt : Nat
  completedAt : Option Nat
  durationMs : Option Nat
  tokenCount : Option Nat
  deriving DecidableEq, Repr

/-- The relational store state. -/
structure DbState where
  skills : List Skill
  executions : List Execution
  nextId : Nat
  clock : Nat
  deriving DecidableEq, Repr

/-- `createExecution` from `database.ts`: insert a new Execution row with
`status = 'running'` and `startedAt = new Date()`.  Nothing else is touched —
in particular the parent Skill row is left unchanged. -/
def createExecution (skillId trigger input : String) (s : DbState) :
    String × DbState :=
  let eid := "exec-" ++ toString s.nextId
  let e : Execution :=
    { id := eid, skillId := skillId, status := ExecStatus.running,
      trigger := trigger, input := input, output := none, trace := none,
      error := none, startedAt := s.clock, completedAt := none,
      durationMs := none, tokenCount := none }
  (eid,
   { s with executions := e :: s.executions, nextId := s.nextId + 1,
            clock := s.clock + 1 })

/-- The update payload of `updateExecution` (`undefined` fields are `none`). -/
structure UpdateResult where
  status : TerminalStatus
  output : Option String
  trace : Option (List String)
  error : Option String
  durationMs : Option Nat
  tokenCount : Option Nat
  deriving DecidableEq, Repr

/-- Prisma column update: an `undefined` (`none`) value leaves the column. -/
def updField (new old : Option α) : Option α :=
  match new with
  | some v => some v
  | none => old

/-- The row produced by the `prisma.execution.update` inside
`updateExecution`: terminal status, payload fields, `completedAt = new
Date()`. -/
def applyUpdate (e : Execution) (r : UpdateResult) (now : Nat) : Execution :=
  { e with
    status := r.status.toExecStatus,
    output := updField r.output e.output,
    trace := updField r.trace e.trace,
    error := updField r.error e.error,
    durationMs := updField r.durationMs e.durationMs,
    tokenCount := updField r.tokenCount e.tokenCount,
    completedAt := some now }

/-- The `prisma.execution.update` statement inside `updateExecution`: apply
the terminal payload to the matching row. -/
def execTableUpdate (executionId : String) (r : UpdateResult) (s : DbState) :
    DbState :=
  { s with
    executions := s.executions.map
      (fun ex => if ex.id == executionId then applyUpdate ex r s.clock else ex),
    clock := s.clock + 1 }

/-- The `prisma.skill.update` statement inside `updateExecution`: increment
`runCount`, stamp `lastRunAt`; a missing Skill row throws, which the
surrounding catch swallows. -/
def skillRunUpdate (skillId : String) (s : DbState) : DbState :=
  match s.skills.find? (fun sk => sk.id == skillId) with
  | none => s
  | some _ =>
    { s with
      skills := s.skills.map
        (fun sk =>
          if sk.id == skillId then
            { sk with runCount := sk.runCount + 1, lastRunAt := some s.clock }
          else sk),
      clock := s.clock + 1 }

/-- `updateExecution` from `database.ts`: update the Execution row (throwing —
hence no-op — when it is missing), then look up its `skillId` and increment the
Skill's `runCount` / set `lastRunAt`.  The two writes are separate statements,
not a transaction, and every call that finds the row increments again. -/
def updateExecution (executionId : String) (r : UpdateResult) (s : DbState) :
    DbState :=
  match s.executions.find? (fun e => e.id == executionId) with
  | none => s
  | some e => skillRunUpdate e.skillId (execTableUpdate executionId r s)

/-- `upsertResult` from `database.ts`: when the caller-supplied metadata
carries an `executionId`, it updates that execution to `completed` with the
result text and the metadata's `durationMs` (usually absent). -/
def upsertResult (text : String) (metaExecutionId : Option String)
    (metaDurationMs : Option Nat) (s : DbState) : DbState :=
  match metaExecutionId with
  | none => s
  | some eid =>
    updateExecution eid
      { status := TerminalStatus.completed, output := some text, trace := none,
        error := none, durationMs := metaDurationMs, tokenCount := none } s

/-- The database interaction sequence of `processWebhook` (`webhook.ts`) for a
skill-matched request whose orchestration succeeds: create the Execution
before orchestration, then on success call `upsertResult` (whose metadata
carries the `executionId`) followed by the direct `updateExecution` to
`completed`.  Returns the execution id and the four observable store states
(initial, post-create/pre-orchestration, post-`upsertResult`, final). -/
def processWebhookSuccess (skillId prompt response : String)
    (trace : Option (List String)) (durationMs : Nat) (s0 : DbState) :
    String × (DbState × DbState × DbState × DbState) :=
  let (eid, s1) := createExecution skillId "webhook" prompt s0
  let s2 := upsertResult response (some eid) none s1
  let s3 := updateExecution eid
    { status := TerminalStatus.completed, output := some response,
      trace := trace, error := none, durationMs := some durationMs,
      tokenCount := none } s2
  (eid, (s0, s1, s2, s3))

/-- The run counter of a Skill row. -/
def runCountOf (s : DbState) (skillId : String) : Option Nat :=
  (s.skills.find? (fun sk => sk.id == skillId)).map (fun sk => sk.runCount)

/-- The status of an Execution row. -/
def statusOf (s : DbState) (executionId : String) : Option ExecStatus :=
  (s.executions.find? (fun e => e.id == executionId)).map (fun e => e.status)

/-- The `completedAt` column of an Execution row. -/
def completedAtOf (s : DbState) (executionId : String) : Option (Option Nat) :=
  (s.executions.find? (fun e => e.id == executionId)).map
    (fun e => e.completedAt)

/-- A concrete matched Skill with 5 previous runs. -/
def skillW : Skill :=
  { id := "skill-1", name := "Weekly Digest", description := some "digest",
    steps := ["step1"], isActive := true, runCount := 5, lastRunAt := none,
    createdAt := 0 }

/-- A concrete initial store: one skill, no executions, clock at 10. -/
def dbInit : DbState :=
  { skills := [skillW], executions := [], nextId := 1, clock := 10 }

/-- The concrete successful skill-matched run used as failing input. -/
def successRun : String × (DbState × DbState × DbState × DbState) :=
  processWebhookSuccess "skill-1" "do the digest" "done" (some ["msg"]) 1234
    dbInit

/-- The execution id of the concrete run. -/
def runEid : String := successRun.1

/-- Store state right after the pre-orchestration `createExecution`. -/
def runS1 : DbState := successRun.2.2.1

/-- Store state after `upsertResult` (first terminal write). -/
def runS2 : DbState := successRun.2.2.2.1

/-- Final store state after the direct `updateExecution` (second terminal
write). -/
def runS3 : DbState := successRun.2.2.2.2

example : runEid = "exec-1" := by decide

/-- Counterexample to claim C1 as stated: in the store state between
`createExecution` and orchestration, an observer sees the new Execution row
(status `running`) while the parent Skill's run counter is still its old value
5 — the creation writes no Skill update, let alone atomically. -/
theorem createExecution_not_atomic_cex :
    statusOf runS1 runEid = some ExecStatus.running ∧
    runCountOf runS1 "skill-1" = some 5 ∧
    runCountOf runS1 "skill-1" ≠ some 6 := by
  decide

/-- Looking up a skill by id commutes with an id-preserving guarded map. -/
theorem find?_map_guarded (l : List Skill) (sid : String) (f : Skill → Skill)
    (hpres : ∀ k, (f k).id = k.id) :
    (l.map (fun k => if k.id == sid then f k else k)).find?
        (fun k => k.id == sid) =
      (l.find? (fun k => k.id == sid)).map
        (fun k => if k.id == sid then f k else k) := by
  induction l with
  | nil => rfl
  | cons a as ih =>
    by_cases h : a.id = sid
    · simp [h, hpres a]
    · have hb : (a.id == sid) = false := by simp [h]
      have hhead : (if a.id == sid then f a else a) = a := by simp [hb]
      rw [List.map_cons, hhead]
      simp only [List.find?, hb]
      exact ih

/-- Claim C1 (amended): before orchestration the pipeline only inserts the
Execution row — status `running`, `startedAt` stamped, Skill table untouched;
the Skill's `runCount`/`lastRunAt` are updated only by `updateExecution` when
the execution reaches a terminal state, in a separate (non-transactional)
statement that increments the counter by one per call. -/
theorem createExecution_pre_orchestration_spec (s0 : DbState)
    (skillId trigger input : String) :
    ((createExecution skillId trigger input s0).2.skills = s0.skills ∧
      (createExecution skillId trigger input s0).2.executions =
        { id := (createExecution skillId trigger input s0).1,
          skillId := skillId, status := ExecStatus.running, trigger := trigger,
          input := input, output := none, trace := none, error := none,
          startedAt := s0.clock, completedAt := none, durationMs := none,
          tokenCount := none } :: s0.executions) ∧
    (∀ (s : DbState) (eid : String) (r : UpdateResult) (e : Execution)
        (sk : Skill),
      s.executions.find? (fun ex => ex.id == eid) = some e →
      s.skills.find? (fun k => k.id == e.skillId) = some sk →
      runCountOf (updateExecution eid r s) e.skillId = some (sk.runCount + 1)) := by
  refine ⟨⟨rfl, rfl⟩, ?_⟩
  intro s eid r e sk hfind hskill
  have hskId : (sk.id == e.skillId) = true := by
    simpa using List.find?_some hskill
  have hstep : updateExecution eid r s =
      skillRunUpdate e.skillId (execTableUpdate eid r s) := by
    unfold updateExecution
    rw [hfind]
  have hstep2 : skillRunUpdate e.skillId (execTableUpdate eid r s) =
      { execTableUpdate eid r s with
        skills := s.skills.map
          (fun k =>
            if k.id == e.skillId then
              { k with runCount := k.runCount + 1,
                       lastRunAt := some (execTableUpdate eid r s).clock }
            else k),
        clock := (execTableUpdate eid r s).clock + 1 } := by
    unfold skillRunUpdate
    rw [show (execTableUpdate eid r s).skills = s.skills from rfl, hskill]
  rw [hstep, hstep2]
  unfold runCountOf
  rw [show ({ execTableUpdate eid r s with
        skills := s.skills.map
          (fun k =>
            if k.id == e.skillId then
              { k with runCount := k.runCount + 1,
                       lastRunAt := some (execTableUpdate eid r s).clock }
            else k),
        clock := (execTableUpdate eid r s).clock + 1 } : DbState).skills =
      s.skills.map
        (fun k =>
          if k.id == e.skillId then
            { k with runCount := k.runCount + 1,
                     lastRunAt := some (execTableUpdate eid r s).clock }
          else k) from rfl,
    find?_map_guarded s.skills e.skillId
      (fun k =>
        { k with runCount := k.runCount + 1,
                 lastRunAt := some (execTableUpdate eid r s).clock })
      (fun _ => rfl), hskill]
  have hskEq : sk.id = e.skillId := by simpa using hskId
  simp [hskEq]

/-- Witness for `createExecution_pre_orchestration_spec`: in the concrete
post-creation state, a terminal `updateExecution` increments the skill counter
from 5 to 6. -/
theorem createExecution_pre_orchestration_spec_witness :
    runCountOf
      (updateExecution "exec-1"
        { status := TerminalStatus.completed, output := some "done",
          trace := none, error := none, durationMs := some 7,
          tokenCount := none } runS1) "skill-1" = some 6 := by
  have h := (createExecution_pre_orchestration_spec dbInit "skill-1" "webhook"
    "do the digest").2 runS1 "exec-1"
    { status := TerminalStatus.completed, output := some "done",
      trace := none, error := none, durationMs := some 7, tokenCount := none }
    { id := "exec-1", skillId := "skill-1", status := ExecStatus.running,
      trigger := "webhook", input := "do the digest", output := none,
      trace := none, error := none, startedAt := 10, completedAt := none,
      durationMs := none, tokenCount := none }
    skillW (by decide) (by decide)
  simpa using h

/-- Claim C2 (code bug): on the concrete successful skill-matched run the
final store shows `runCount = 7` — the counter was incremented twice (once via
the legacy `upsertResult` path, once via the direct `updateExecution`), not
once as specified (which would give 6). -/
theorem pipeline_success_double_increment :
    runCountOf dbInit "skill-1" = some 5 ∧
    runCountOf runS3 "skill-1" = some 7 ∧
    runCountOf runS3 "skill-1" ≠ some 6 := by
  decide

/-- Claim C3 (code bug): on the concrete successful skill-matched run the
terminal status `completed` is written twice and `completedAt` is overwritten
(11, then 13) — the terminal state is re-entered and `completedAt` is not set
exactly once. -/
theorem pipeline_success_completedAt_overwritten :
    statusOf runS2 runEid = some ExecStatus.completed ∧
    completedAtOf runS2 runEid = some (some 11) ∧
    statusOf runS3 runEid = some ExecStatus.completed ∧
    completedAtOf runS3 runEid = some (some 13) ∧
    (some (11 : Nat) ≠ some 13) := by
  decide

/-! ## JSON values and a model of `JSON.parse`
(used by `parseClassificationResponse` in `workflow-classifier.ts`)

`JSON.parse` is a host-library capability; it is modelled by a recursive
descent parser over `List Char` covering the grammar the classifier exchange
uses (objects, arrays, strings with simple escapes, integer numbers, booleans,
null, whitespace), requiring the whole input to be consumed.  Property access
`parsed.x` is `jGet`; JavaScript truthiness is `jsTruthy`; `??` is
`jsCoalesce`; `||` is `jsOr`. -/

/-- The opening brace character (written via its code). -/
def lbrace : Char := '\x7b'

/-- The closing brace character (written via its code). -/
def rbrace : Char := '\x7d'

/-- A JSON value.  `obj` keeps fields in source order; later duplicates win on
access, as with `JSON.parse`. -/
inductive Json where
  | null
  | bool (b : Bool)
  | num (n : Int)
  | str (s : List Char)
  | arr (elems : List Json)
  | obj (fields : List (List Char × Json))

/-- JSON whitespace. -/
def isJsonWs (c : Char) : Bool :=
  c = ' ' || c = '\n' || c = '\t' || c = '\r'

/-- Skip leading whitespace. -/
def skipWs (cs : List Char) : List Char :=
  cs.dropWhile isJsonWs

/-- Translate a JSON string escape character. -/
def escChar (c : Char) : Char :=
  if c = 'n' then '\n'
  else if c = 't' then '\t'
  else if c = 'r' then '\r'
  else if c = 'b' then '\x08'
  else if c = 'f' then '\x0c'
  else c

/-- Parse the body of a JSON string after the opening quote; returns the
decoded characters and the remaining input after the closing quote. -/
def parseStringBody : List Char → Option (List Char × List Char)
  | [] => none
  | '"' :: rest => some ([], rest)
  | '\\' :: [] => none
  | '\\' :: e :: rest2 =>
    match parseStringBody rest2 with
    | none => none
    | some (s, r) => some (escChar e :: s, r)
  | c :: rest =>
    match parseStringBody rest with
    | none => none
    | some (s, r) => some (c :: s, r)

/-- Parse a run of decimal digits. -/
def parseDigits (cs : List Char) : Option (Nat × List Char) :=
  let digits := cs.takeWhile (fun c => c.isDigit)
  if digits.isEmpty then none
  else some (digits.foldl (fun n c => n * 10 + (c.toNat - '0'.toNat)) 0,
             cs.dropWhile (fun c => c.isDigit))

/-- Parse an (integer) JSON number. -/
def parseNumber (cs : List Char) : Option (Json × List Char) :=
  match cs with
  | '-' :: rest =>
    match parseDigits rest with
    | none => none
    | some (n, r) => some (Json.num (-(n : Int)), r)
  | _ =>
    match parseDigits cs with
    | none => none
    | some (n, r) => some (Json.num (n : Int), r)

/-- Intermediate result of the single fuelled parsing loop: a value, a list of
object members, or a list of array elements. -/
inductive ParseOut where
  | val (j : Json)
  | mems (ms : List (List Char × Json))
  | els (vs : List Json)

/-- The fuelled recursive-descent loop.  `mode` selects the production:
`0` parses one JSON value, `1` parses `"key": value (, ...)* }` object
members, `2` parses `value (, ...)* ]` array elements.  Structural recursion
on the fuel keeps every clause kernel-reducible. -/
def parseGo : Nat → Nat → List Char → Option (ParseOut × List Char)
  | 0, _, _ => none
  | fuel + 1, 0, cs =>
    let cs1 := skipWs cs
    if "null".toList.isPrefixOf cs1 then some (ParseOut.val Json.null, cs1.drop 4)
    else if "true".toList.isPrefixOf cs1 then
      some (ParseOut.val (Json.bool true), cs1.drop 4)
    else if "false".toList.isPrefixOf cs1 then
      some (ParseOut.val (Json.bool false), cs1.drop 5)
    else
      match cs1 with
      | '"' :: rest =>
        match parseStringBody rest with
        | none => none
        | some (s, r) => some (ParseOut.val (Json.str s), r)
      | '[' :: rest =>
        match skipWs rest with
        | ']' :: r2 => some (ParseOut.val (Json.arr []), r2)
        | _ =>
          match parseGo fuel 2 rest with
          | some (ParseOut.els vs, r2) => some (ParseOut.val (Json.arr vs), r2)
          | _ => none
      | c :: rest =>
        if c = lbrace then
          match skipWs rest with
          | c2 :: _ =>
            if c2 = rbrace then some (ParseOut.val (Json.obj []), (skipWs rest).drop 1)
            else
              match parseGo fuel 1 rest with
              | some (ParseOut.mems ms, r3) => some (ParseOut.val (Json.obj ms), r3)
              | _ => none
          | [] => none
        else
          match parseNumber cs1 with
          | none => none
          | some (j, r) => some (ParseOut.val j, r)
      | [] => none
  | fuel + 1, 1, cs =>
    match skipWs cs with
    | '"' :: rest =>
      match parseStringBody rest with
      | none => none
      | some (key, r1) =>
        match skipWs r1 with
        | ':' :: r2 =>
          match parseGo fuel 0 r2 with
          | some (ParseOut.val v, r3) =>
            match skipWs r3 with
            | ',' :: r4 =>
              match parseGo fuel 1 r4 with
              | some (ParseOut.mems ms, r5) =>
                some (ParseOut.mems ((key, v) :: ms), r5)
              | _ => none
            | c :: r4 =>
              if c = rbrace then some (ParseOut.mems [(key, v)], r4) else none
            | [] => none
          | _ => none
        | _ => none
    | _ => none
  | fuel + 1, _, cs =>
    match parseGo fuel 0 cs with
    | some (ParseOut.val v, r1) =>
      match skipWs r1 with
      | ',' :: r2 =>
        match parseGo fuel 2 r2 with
        | some (ParseOut.els vs, r3) => some (ParseOut.els (v :: vs), r3)
        | _ => none
      | ']' :: r2 => some (ParseOut.els [v], r2)
      | _ => none
    | _ => none

/-- Parse one JSON value with the given fuel. -/
def parseValue (fuel : Nat) (cs : List Char) : Option (Json × List Char) :=
  match parseGo fuel 0 cs with
  | some (ParseOut.val j, r) => some (j, r)
  | _ => none

/-- The model of `JSON.parse`: parse one value and require only trailing
whitespace to remain. -/
def jsonParse (cs : List Char) : Option Json :=
  match parseValue (cs.length + 1) cs with
  | some (v, rest) => if skipWs rest = [] then some v else none
  | none => none

/-- JavaScript property access on a parsed JSON value (`undefined` is `none`;
later duplicate keys win, as with `JSON.parse`). -/
def jGet (j : Json) (key : List Char) : Option Json :=
  match j with
  | Json.obj fields =>
    (fields.reverse.find? (fun f => f.1 == key)).map (fun f => f.2)
  | _ => none

/-- JavaScript truthiness of a JSON value. -/
def jsTruthy : Json → Bool
  | Json.null => false
  | Json.bool b => b
  | Json.num n => n != 0
  | Json.str s => !s.isEmpty
  | Json.arr _ => true
  | Json.obj _ => true

/-- The `??` operator (nullish coalescing: replaces `undefined` and `null`). -/
def jsCoalesce (v : Option Json) (d : Json) : Json :=
  match v with
  | none => d
  | some Json.null => d
  | some x => x

/-- The `||` operator on JSON values (truthiness-based). -/
def jsOr (v d : Json) : Json :=
  if jsTruthy v then v else d

example : jsonParse "\x7b\"match\": true\x7d".toList =
    some (Json.obj [("match".toList, Json.bool true)]) := rfl

example : jsonParse "\x7b\"a\": [1, -2], \"b\": \"x\"\x7d".toList =
    some (Json.obj [("a".toList, Json.arr [Json.num 1, Json.num (-2)]),
                    ("b".toList, Json.str "x".toList)]) := rfl

example : jsonParse "\x7b\"a\": true\x7d trailing".toList = none := rfl

/-- The text matched by the classifier's regex `/\{[\s\S]*\}/` ending at the
last closing brace: the prefix of `cs` up to and including its last `rbrace`
(empty when there is none). -/
def lastCloseSegment (cs : List Char) : List Char :=
  (cs.reverse.dropWhile (fun c => c ≠ rbrace)).reverse

/-- The match of `text.match(/\{[\s\S]*\}/)`: starting at the first `{` that
has some `}` after it, extend greedily to the last `}` of the text. -/
def greedyBraceSpan : List Char → Option (List Char)
  | [] => none
  | c :: rest =>
    if c = lbrace ∧ rest.contains rbrace then
      some (lbrace :: lastCloseSegment rest)
    else greedyBraceSpan rest

example : greedyBraceSpan "ab \x7bc\x7d d\x7d e".toList =
    some "\x7bc\x7d d\x7d".toList := rfl

example : greedyBraceSpan "no braces".toList = none := rfl

/-- The result record of `parseClassificationResponse` (`match` is a Lean
keyword; the source's `match` field is `jmatch`).  The fields hold the raw
JSON values the JavaScript object would hold after the `??` defaults. -/
structure ParsedClassification where
  jmatch : Json
  workflowName : Json
  confidence : Json
  reasoning : Option Json

/-- The `{match: false, workflowName: null, confidence: 'none'}` fallback. -/
def noneParsed : ParsedClassification :=
  { jmatch := Json.bool false, workflowName := Json.null,
    confidence := Json.str "none".toList, reasoning := none }

/-- The field extraction applied to a successfully parsed JSON object:
`match ?? false`, `workflowName ?? null`, `confidence ?? 'none'`,
`reasoning`. -/
def parsedOfJson (j : Json) : ParsedClassification :=
  { jmatch := jsCoalesce (jGet j "match".toList) (Json.bool false),
    workflowName := jsCoalesce (jGet j "workflowName".toList) Json.null,
    confidence := jsCoalesce (jGet j "confidence".toList)
      (Json.str "none".toList),
    reasoning := jGet j "reasoning".toList }

/-- `parseClassificationResponse` from `workflow-classifier.ts`: extract the
regex match `/\{[\s\S]*\}/` from the raw response, `JSON.parse` it, and apply
the field defaults; any failure yields the `{match: false}` fallback. -/
def parseClassificationResponse (text : List Char) : ParsedClassification :=
  match greedyBraceSpan text with
  | none => noneParsed
  | some span =>
    match jsonParse span with
    | none => noneParsed
    | some j => parsedOfJson j

/-- Modelled from the spec: the matching closing brace for an already-open
brace, by depth counting (`acc` holds the reversed consumed characters). -/
def matchingClose : Nat → List Char → List Char → Option (List Char)
  | _, _, [] => none
  | depth, acc, c :: rest =>
    if c = rbrace then
      if depth = 0 then some ((c :: acc).reverse)
      else matchingClose (depth - 1) (c :: acc) rest
    else if c = lbrace then matchingClose (depth + 1) (c :: acc) rest
    else matchingClose depth (c :: acc) rest

/-- Modelled from the spec: "extract the first balanced JSON object found in
the raw text response (tolerating surrounding prose/markdown fencing)" — the
span from the first `{` to its matching `}` by brace-depth counting. -/
def firstBalancedBraceSpan : List Char → Option (List Char)
  | [] => none
  | c :: rest =>
    if c = lbrace then matchingClose 0 [c] rest
    else firstBalancedBraceSpan rest

/-- Modelled from the spec: the classification-parse result the spec sentence
describes — parse the first balanced JSON object; if none parses, the `{none}`
fallback. -/
def specParseClassification (text : List Char) : ParsedClassification :=
  match firstBalancedBraceSpan text with
  | none => noneParsed
  | some span =>
    match jsonParse span with
    | none => noneParsed
    | some j => parsedOfJson j

example : firstBalancedBraceSpan "ab \x7bc\x7d d\x7d e".toList =
    some "\x7bc\x7d".toList := rfl

/-- The concrete capability response on which the code and the spec sentence
disagree: a balanced object followed by prose containing one more `}`. -/
def cexText : List Char :=
  ("I think... \x7b\"match\": true, \"workflowName\": \"Daily Report\", " ++
   "\"confidence\": \"high\"\x7d ... bye \x7d").toList

/-- Counterexample to claim C6 as stated: on `cexText` the code's greedy
regex span (first `{` to the LAST `}`) fails to parse, so the code returns the
`{none}` fallback (`match = false`), while the first balanced JSON object the
spec describes parses to `match = true`. -/
theorem parseClassification_first_balanced_cex :
    (parseClassificationResponse cexText).jmatch = Json.bool false ∧
    (specParseClassification cexText).jmatch = Json.bool true ∧
    Json.bool false ≠ Json.bool true := by
  exact ⟨rfl, rfl, by simp⟩

/-- `dropWhile` walks past a block whose elements all satisfy the predicate. -/
theorem dropWhile_append_all (p : Char → Bool) (xs ys : List Char)
    (h : ∀ x ∈ xs, p x = true) :
    (xs ++ ys).dropWhile p = ys.dropWhile p := by
  induction xs with
  | nil => rfl
  | cons a as ih =>
    have ha := h a (List.mem_cons_self a as)
    simp only [List.cons_append, List.dropWhile_cons, ha, if_true]
    exact ih (fun x hx => h x (List.mem_cons_of_mem a hx))

/-- The prefix up to the last `}` of `mid ++ '}' :: post` is `mid ++ ['}']`
when `post` has no `}`. -/
theorem lastCloseSegment_concat (mid post : List Char) (hpost : rbrace ∉ post) :
    lastCloseSegment (mid ++ rbrace :: post) = mid ++ [rbrace] := by
  unfold lastCloseSegment
  rw [List.reverse_append, List.reverse_cons, List.append_assoc]
  rw [dropWhile_append_all _ post.reverse _ ?_]
  · simp [List.dropWhile_cons]
  · intro x hx
    have hxp : x ∈ post := List.mem_reverse.mp hx
    simp only [decide_eq_true_eq]
    exact fun hEq => hpost (hEq ▸ hxp)

/-- The regex model finds exactly the object span when the preceding prose has
no `{` and the trailing prose has no `}`. -/
theorem greedyBraceSpan_concat (pre mid post : List Char)
    (hpre : lbrace ∉ pre) (hpost : rbrace ∉ post) :
    greedyBraceSpan (pre ++ (lbrace :: (mid ++ [rbrace])) ++ post) =
      some (lbrace :: (mid ++ [rbrace])) := by
  induction pre with
  | nil =>
    rw [List.nil_append,
      show (lbrace :: (mid ++ [rbrace])) ++ post =
        lbrace :: (mid ++ rbrace :: post) by simp]
    unfold greedyBraceSpan
    rw [if_pos ⟨rfl, by simp⟩, lastCloseSegment_concat mid post hpost]
  | cons a pre ih =>
    have ha : ¬(a = lbrace) :=
      fun h => hpre (h ▸ List.mem_cons_self a pre)
    rw [List.cons_append, List.cons_append]
    unfold greedyBraceSpan
    rw [if_neg (fun h => ha h.1)]
    exact ih (fun hx => hpre (List.mem_cons_of_mem a hx))

/-- Claim C6 (amended): the classifier extracts the greedy regex span from the
first `{` to the LAST `}` of the raw response (not the first balanced object);
surrounding prose/markdown fencing is tolerated exactly when it contributes no
`{` before the object and no `}` after it, in which case the object's parse is
used; when no such span exists, or the span fails to parse as JSON, the result
is the `{none}` fallback. -/
theorem parseClassification_greedy_spec :
    (∀ (pre mid post : List Char) (j : Json),
      lbrace ∉ pre → rbrace ∉ post →
      jsonParse (lbrace :: (mid ++ [rbrace])) = some j →
      parseClassificationResponse
        (pre ++ (lbrace :: (mid ++ [rbrace])) ++ post) = parsedOfJson j) ∧
    (∀ text, greedyBraceSpan text = none →
      parseClassificationResponse text = noneParsed) ∧
    (∀ text span, greedyBraceSpan text = some span → jsonParse span = none →
      parseClassificationResponse text = noneParsed) := by
  refine ⟨?_, ?_, ?_⟩
  · intro pre mid post j hpre hpost hparse
    unfold parseClassificationResponse
    rw [greedyBraceSpan_concat pre mid post hpre hpost]
    simp only [hparse]
  · intro text h
    unfold parseClassificationResponse
    rw [h]
  · intro text span h1 h2
    unfold parseClassificationResponse
    rw [h1]
    simp only [h2]

/-- Witness for `parseClassification_greedy_spec`: a concrete response with
brace-free prose around one JSON object parses to that object's fields. -/
theorem parseClassification_greedy_spec_witness :
    parseClassificationResponse
      ("x ".toList ++ (lbrace :: ("\"match\": true".toList ++ [rbrace])) ++
        " y".toList) =
      parsedOfJson (Json.obj [("match".toList, Json.bool true)]) :=
  (parseClassification_greedy_spec).1 "x ".toList "\"match\": true".toList
    " y".toList (Json.obj [("match".toList, Json.bool true)])
    (by decide) (by decide) rfl

/-! ## Workflow classifier (`classifyWorkflow`, `workflow-classifier.ts`)

The classifier's collaborators are an environment: the Prisma skill table
queries (as `Except`-valued results so a storage failure can be injected), the
Anthropic language capability (prompt text to `content[0]`), and the API key
sources.  `classifyWorkflowAux` is the `try` body; the thrown-error side is
`Except.error`, and `classifyWorkflow` applies the top-level catch.  The
second component of the result records whether the language capability was
invoked. -/

/-- A storage-layer error underneath `getAllWorkflows` / `getWorkflowById`. -/
structure DbErr where
  msg : String
  deriving DecidableEq, Repr

/-- The catalog entry shape of `getAllWorkflows` (id, name, description). -/
structure WorkflowSummary where
  id : String
  name : String
  description : String
  deriving DecidableEq, Repr

/-- The `Workflow` shape returned by `getWorkflowById`. -/
structure Workflow where
  id : String
  name : String
  description : String
  steps : List String
  createdAt : Nat
  deriving DecidableEq, Repr

/-- `response.content[0]` of the language capability: a text block or
anything else (which makes the classifier throw). -/
inductive LlmContent where
  | text (t : List Char)
  | other

/-- The classifier's collaborators. -/
structure ClassifierEnv where
  dbSkills : Except DbErr (List Skill)
  findSkill : String → Except DbErr (Option Skill)
  llm : List Char → Except JsErr LlmContent
  dbApiKey : Option (List Char)
  envApiKey : Option (List Char)

/-- Insert a summary into a name-sorted list (model of `orderBy name asc`). -/
def insertByName (w : WorkflowSummary) : List WorkflowSummary →
    List WorkflowSummary
  | [] => [w]
  | a :: as => if w.name ≤ a.name then w :: a :: as else a :: insertByName w as

/-- Sort summaries by name ascending. -/
def sortByName : List WorkflowSummary → List WorkflowSummary
  | [] => []
  | a :: as => insertByName a (sortByName as)

/-- `getAllWorkflows` from `database.ts`: the active skills as (id, name,
description) summaries ordered by name, with `description ?? ''`; a storage
failure is caught and yields the empty list. -/
def getAllWorkflows (env : ClassifierEnv) : List WorkflowSummary :=
  match env.dbSkills with
  | Except.error _ => []
  | Except.ok skills =>
    sortByName ((skills.filter (fun sk => sk.isActive)).map
      (fun sk =>
        { id := sk.id, name := sk.name,
          description := sk.description.getD "" }))

/-- `getWorkflowById` from `database.ts`: fetch the full skill by id; both a
storage failure and a missing row yield `null`. -/
def getWorkflowById (env : ClassifierEnv) (id : String) : Option Workflow :=
  match env.findSkill id with
  | Except.error _ => none
  | Except.ok none => none
  | Except.ok (some sk) =>
    some { id := sk.id, name := sk.name,
           description := sk.description.getD "",
           steps := sk.steps, createdAt := sk.createdAt }

/-- The classification result record (`workflowId` / `workflowData` are
`null`able; `confidence` and `reasoning` carry the raw JSON-derived values). -/
structure ClassificationResult where
  workflowId : Option String
  workflowData : Option Workflow
  confidence : Json
  reasoning : Option Json

/-- The `{workflowId: null, workflowData: null, confidence: 'none'}` result
(returned on empty catalog and by the top-level catch). -/
def noneClassification : ClassificationResult :=
  { workflowId := none, workflowData := none,
    confidence := Json.str "none".toList, reasoning := none }

/-- The classification prompt sent to the language capability (abridged
model of the template: the instruction text, the catalog listing and the user
request; the claims never inspect its contents). -/
def buildClassificationPrompt (workflows : List WorkflowSummary)
    (userPrompt : String) : List Char :=
  ("You are a workflow classifier.\nAVAILABLE WORKFLOWS:\n" ++
    String.intercalate "\n"
      (workflows.map (fun w => "- " ++ w.name ++ ": " ++ w.description)) ++
    "\nUSER REQUEST:\n\"" ++ userPrompt ++ "\"").toList

/-- The `getAnthropicClient` key resolution: database key `||` environment
key; a missing (or empty, hence falsy) key throws. -/
def resolveApiKey (env : ClassifierEnv) : Except JsErr (List Char) :=
  let key := match env.dbApiKey with
    | some s => if s.isEmpty then env.envApiKey else some s
    | none => env.envApiKey
  match key with
  | some s =>
    if s.isEmpty then
      Except.error { code := none, message := "No Anthropic API key configured. Set it via /api/config or ANTHROPIC_API_KEY env var." }
    else Except.ok s
  | none =>
    Except.error { code := none, message := "No Anthropic API key configured. Set it via /api/config or ANTHROPIC_API_KEY env var." }

/-- JavaScript `x.toLowerCase()` on a JSON value: defined on strings,
a `TypeError` (thrown) on anything else. -/
def jsToLowerCase : Json → Except JsErr (List Char)
  | Json.str s => Except.ok (s.map Char.toLower)
  | _ => Except.error { code := none, message := "TypeError: toLowerCase is not a function" }

/-- Lower-cased characters of a catalog name. -/
def lowerStr (s : String) : List Char :=
  s.toList.map Char.toLower

/-- The `try` body of `classifyWorkflow`, with the thrown-exception side as
`Except.error`; the second component records whether the language capability
was invoked. -/
def classifyWorkflowAux (env : ClassifierEnv) (userPrompt : String) :
    Except JsErr ClassificationResult × Bool :=
  let workflows := getAllWorkflows env
  if workflows.isEmpty then
    (Except.ok noneClassification, false)
  else
    match resolveApiKey env with
    | Except.error e => (Except.error e, false)
    | Except.ok _ =>
      match env.llm (buildClassificationPrompt workflows userPrompt) with
      | Except.error e => (Except.error e, true)
      | Except.ok LlmContent.other =>
        (Except.error { code := none,
                        message := "Unexpected response type from Claude" },
         true)
      | Except.ok (LlmContent.text respText) =>
        let parsed := parseClassificationResponse respText
        if !(jsTruthy parsed.jmatch) || !(jsTruthy parsed.workflowName) then
          (Except.ok { workflowId := none, workflowData := none,
                       confidence := jsOr parsed.confidence
                         (Json.str "none".toList),
                       reasoning := parsed.reasoning }, true)
        else
          match jsToLowerCase parsed.workflowName with
          | Except.error e => (Except.error e, true)
          | Except.ok lowName =>
            match workflows.find? (fun w => lowerStr w.name == lowName) with
            | none =>
              (Except.ok
                { workflowId := none, workflowData := none,
                  confidence := Json.str "none".toList,
                  reasoning := some (Json.str
                    "Suggested workflow not found in database".toList) },
               true)
            | some matched =>
              match getWorkflowById env matched.id with
              | none =>
                (Except.ok
                  { workflowId := none, workflowData := none,
                    confidence := Json.str "none".toList,
                    reasoning := none }, true)
              | some wd =>
                (Except.ok
                  { workflowId := some wd.id, workflowData := some wd,
                    confidence := jsOr parsed.confidence
                      (Json.str "medium".toList),
                    reasoning := parsed.reasoning }, true)

/-- `classifyWorkflow` from `workflow-classifier.ts`: the body with the
top-level catch that degrades every thrown error to the `{none}` result. -/
def classifyWorkflow (env : ClassifierEnv) (userPrompt : String) :
    ClassificationResult × Bool :=
  match classifyWorkflowAux env userPrompt with
  | (Except.ok r, called) => (r, called)
  | (Except.error _, called) => (noneClassification, called)

/-- Claim C10: a storage failure under the catalog fetch makes
`getAllWorkflows` return the empty list, and `classifyWorkflow` then returns
the `{none}` result without invoking the language capability. -/
theorem getAllWorkflows_error_empty (env : ClassifierEnv) (p : String)
    (e : DbErr) (h : env.dbSkills = Except.error e) :
    getAllWorkflows env = [] ∧
    classifyWorkflow env p = (noneClassification, false) := by
  have h1 : getAllWorkflows env = [] := by
    unfold getAllWorkflows
    rw [h]
  refine ⟨h1, ?_⟩
  unfold classifyWorkflow classifyWorkflowAux
  rw [h1]
  rfl

/-- A concrete environment whose skill-table fetch fails. -/
def env10 : ClassifierEnv :=
  { dbSkills := Except.error { msg := "storage down" },
    findSkill := fun _ => Except.ok none,
    llm := fun _ => Except.ok LlmContent.other,
    dbApiKey := none, envApiKey := none }

/-- Witness for `getAllWorkflows_error_empty`: the concrete failing store. -/
theorem getAllWorkflows_error_empty_witness :
    getAllWorkflows env10 = [] ∧
    classifyWorkflow env10 "ping" = (noneClassification, false) :=
  getAllWorkflows_error_empty env10 "ping" { msg := "storage down" } rfl

/-- Claim C8: `classifyWorkflow` never propagates an error — whatever the body
throws, the catch returns the `{none}` classification; and each failing
dependency (catalog fetch, language capability, JSON parse, full-skill fetch)
yields the `{none}` classification. -/
theorem classifyWorkflow_never_throws (env : ClassifierEnv) (p : String) :
    (∀ e called, classifyWorkflowAux env p = (Except.error e, called) →
      classifyWorkflow env p = (noneClassification, called)) ∧
    (∀ e, env.dbSkills = Except.error e →
      classifyWorkflow env p = (noneClassification, false)) ∧
    (∀ k e, resolveApiKey env = Except.ok k →
      env.llm (buildClassificationPrompt (getAllWorkflows env) p) =
        Except.error e →
      (classifyWorkflow env p).1 = noneClassification) ∧
    (∀ k respText, resolveApiKey env = Except.ok k →
      env.llm (buildClassificationPrompt (getAllWorkflows env) p) =
        Except.ok (LlmContent.text respText) →
      greedyBraceSpan respText = none →
      (classifyWorkflow env p).1 = noneClassification) ∧
    (∀ k respText (nm : List Char) matched dbe,
      resolveApiKey env = Except.ok k →
      env.llm (buildClassificationPrompt (getAllWorkflows env) p) =
        Except.ok (LlmContent.text respText) →
      jsTruthy (parseClassificationResponse respText).jmatch = true →
      (parseClassificationResponse respText).workflowName = Json.str nm →
      nm ≠ [] →
      (getAllWorkflows env).find?
        (fun w => lowerStr w.name == nm.map Char.toLower) = some matched →
      env.findSkill matched.id = Except.error dbe →
      (classifyWorkflow env p).1 = noneClassification) := by
  refine ⟨?_, ?_, ?_, ?_, ?_⟩
  · intro e called h
    unfold classifyWorkflow
    rw [h]
  · intro e h
    have h1 : getAllWorkflows env = [] := by
      unfold getAllWorkflows
      rw [h]
    unfold classifyWorkflow classifyWorkflowAux
    rw [h1]
    rfl
  · intro k e hkey hllm
    by_cases hw : (getAllWorkflows env).isEmpty = true
    · unfold classifyWorkflow classifyWorkflowAux
      simp only [hw, if_true]
    · simp only [Bool.not_eq_true] at hw
      unfold classifyWorkflow classifyWorkflowAux
      simp only [hw, Bool.false_eq_true, if_false, hkey, hllm]
  · intro k respText hkey hllm hspan
    by_cases hw : (getAllWorkflows env).isEmpty = true
    · unfold classifyWorkflow classifyWorkflowAux
      simp only [hw, if_true]
    · simp only [Bool.not_eq_true] at hw
      have hparsed : parseClassificationResponse respText = noneParsed := by
        unfold parseClassificationResponse
        rw [hspan]
      unfold classifyWorkflow classifyWorkflowAux
      simp only [hw, Bool.false_eq_true, if_false, hkey, hllm, hparsed]
      rfl
  · intro k respText nm matched dbe hkey hllm hm hname hnm hfindw herr
    by_cases hw : (getAllWorkflows env).isEmpty = true
    · unfold classifyWorkflow classifyWorkflowAux
      simp only [hw, if_true]
    · simp only [Bool.not_eq_true] at hw
      have hwn : jsTruthy (parseClassificationResponse respText).workflowName =
          true := by
        rw [hname]
        simpa [jsTruthy] using hnm
      have hlow : jsToLowerCase (parseClassificationResponse respText).workflowName =
          Except.ok (nm.map Char.toLower) := by
        rw [hname]
        rfl
      have hfetch : getWorkflowById env matched.id = none := by
        unfold getWorkflowById
        rw [herr]
      unfold classifyWorkflow classifyWorkflowAux
      simp only [hw, Bool.false_eq_true, if_false, hkey, hllm, hm, hwn,
        Bool.not_true, Bool.or_self, hlow, hfindw, hfetch]
      rfl

/-- A concrete active skill named `daily report`. -/
def skillDR : Skill :=
  { id := "sk-1", name := "daily report",
    description := some "generates the daily report", steps := ["step"],
    isActive := true, runCount := 0, lastRunAt := none, createdAt := 0 }

/-- A concrete environment whose language capability fails. -/
def env8 : ClassifierEnv :=
  { dbSkills := Except.ok [skillDR],
    findSkill := fun _ => Except.ok none,
    llm := fun _ => Except.error { code := none, message := "api down" },
    dbApiKey := some "sk-ant-test".toList, envApiKey := none }

/-- Witness for `classifyWorkflow_never_throws`: with a nonempty catalog and a
failing language capability, classification degrades to `{none}` instead of
propagating the error. -/
theorem classifyWorkflow_never_throws_witness :
    (classifyWorkflow env8 "do something").1 = noneClassification :=
  (classifyWorkflow_never_throws env8 "do something").2.2.1
    "sk-ant-test".toList { code := none, message := "api down" } rfl rfl

/-- Claim C7: when the capability response claims a match with a workflow
name, `classifyWorkflow` resolves the name against the catalog by
case-insensitive exact match; a resolved match (whose full fetch succeeds)
returns that workflow's id and data, and an unresolvable name degrades to the
`{none}` result with the `Suggested workflow not found in database` reasoning
note — never an error. -/
theorem classifyWorkflow_resolution_spec (env : ClassifierEnv) (p : String)
    (k respText nm : List Char)
    (hne : (getAllWorkflows env).isEmpty = false)
    (hkey : resolveApiKey env = Except.ok k)
    (hllm : env.llm (buildClassificationPrompt (getAllWorkflows env) p) =
      Except.ok (LlmContent.text respText))
    (hm : jsTruthy (parseClassificationResponse respText).jmatch = true)
    (hname : (parseClassificationResponse respText).workflowName = Json.str nm)
    (hnm : nm ≠ []) :
    (∀ matched wd,
      (getAllWorkflows env).find?
        (fun w => lowerStr w.name == nm.map Char.toLower) = some matched →
      getWorkflowById env matched.id = some wd →
      classifyWorkflow env p =
        ({ workflowId := some wd.id, workflowData := some wd,
           confidence := jsOr (parseClassificationResponse respText).confidence
             (Json.str "medium".toList),
           reasoning := (parseClassificationResponse respText).reasoning },
         true)) ∧
    ((getAllWorkflows env).find?
        (fun w => lowerStr w.name == nm.map Char.toLower) = none →
      classifyWorkflow env p =
        ({ workflowId := none, workflowData := none,
           confidence := Json.str "none".toList,
           reasoning := some (Json.str
             "Suggested workflow not found in database".toList) }, true)) := by
  have hwn : jsTruthy (parseClassificationResponse respText).workflowName =
      true := by
    rw [hname]
    simpa [jsTruthy] using hnm
  have hlow : jsToLowerCase (parseClassificationResponse respText).workflowName =
      Except.ok (nm.map Char.toLower) := by
    rw [hname]
    rfl
  constructor
  · intro matched wd hfindw hfetch
    unfold classifyWorkflow classifyWorkflowAux
    simp only [hne, Bool.false_eq_true, if_false, hkey, hllm, hm, hwn,
      Bool.not_true, Bool.or_self, hlow, hfindw, hfetch]
  · intro hfindw
    unfold classifyWorkflow classifyWorkflowAux
    simp only [hne, Bool.false_eq_true, if_false, hkey, hllm, hm, hwn,
      Bool.not_true, Bool.or_self, hlow, hfindw]

/-- The concrete capability response claiming a match for `Daily Report`. -/
def respC7 : List Char :=
  ("I think... \x7b\"match\": true, \"workflowName\": \"Daily Report\", " ++
   "\"confidence\": \"high\"\x7d").toList

/-- A concrete environment with the `daily report` skill and a capability
response naming `Daily Report`. -/
def env7 : ClassifierEnv :=
  { dbSkills := Except.ok [skillDR],
    findSkill := fun i => if i = "sk-1" then Except.ok (some skillDR)
      else Except.ok none,
    llm := fun _ => Except.ok (LlmContent.text respC7),
    dbApiKey := some "sk-ant-test".toList, envApiKey := none }

/-- The full workflow mapped from `skillDR`. -/
def wdDR : Workflow :=
  { id := "sk-1", name := "daily report",
    description := "generates the daily report", steps := ["step"],
    createdAt := 0 }

/-- Witness for `classifyWorkflow_resolution_spec`: the response naming
`Daily Report` resolves case-insensitively to the skill literally named
`daily report`. -/
theorem classifyWorkflow_resolution_spec_witness :
    classifyWorkflow env7 "run the daily report" =
      ({ workflowId := some "sk-1", workflowData := some wdDR,
         confidence := Json.str "high".toList, reasoning := none }, true) :=
  (classifyWorkflow_resolution_spec env7 "run the daily report"
      "sk-ant-test".toList respC7 "Daily Report".toList
      rfl rfl rfl rfl rfl (by decide)).1
    { id := "sk-1", name := "daily report",
      description := "generates the daily report" }
    wdDR rfl rfl
